import Mathlib

/-!
Verification of the credential-resolution and request-gating core of
copilot-api-router.

The embedding models JavaScript strings as Lean `String`s (lists of
characters).  The JS string methods used by the source
(`toLowerCase`, `startsWith`, `slice`, `trim`) are modelled by the
`js*` functions below, scoped to the ASCII behaviour the source relies
on.  The YAML library, the filesystem and the process environment are
external collaborators of the source and are passed in explicitly
(`yamlParse`, `World.readFile`, `EnvMap`).  The module-level cache
variable of `src/lib/account-config.ts` becomes explicit state of type
`Option AccountsConfig` threaded through `getAccountsConfig`.
-/

namespace CopilotRouter

/-- Model of JS `String.prototype.toLowerCase` (ASCII scope, which is all
the source compares: the Bearer scheme token). -/
def jsToLower (s : String) : String :=
  ⟨s.data.map Char.toLower⟩

/-- Model of JS `String.prototype.startsWith`. -/
def jsStartsWith (s pre : String) : Bool :=
  pre.data.isPrefixOf s.data

/-- Model of JS `String.prototype.slice(n)`. -/
def jsSlice (s : String) (n : Nat) : String :=
  ⟨s.data.drop n⟩

/-- Model of JS `String.prototype.trim`: whitespace stripped from both
ends. -/
def jsTrim (s : String) : String :=
  ⟨((s.data.dropWhile Char.isWhitespace).reverse.dropWhile Char.isWhitespace).reverse⟩

/-- A JSON value, as produced by Hono `c.json(...)`.  Field order is the
insertion order of the object literals in the source. -/
inductive Json where
  | str (s : String)
  | obj (fields : List (String × Json))

/-- The slice of an inbound HTTP request inspected by the gate:
the `Authorization` header (`none` when absent) and the request path. -/
structure HttpRequest where
  authorization : Option String
  path : String

/-- Outcome of the gate for one request: pass the request through, or
short-circuit with a status code and a JSON body
(`src/middleware/master-key.ts`). -/
inductive AuthDecision where
  | allow
  | reject (status : Nat) (body : Json)

/-- `BEARER_PREFIX` of `src/middleware/master-key.ts`. -/
def bearerPrefixConst : String := "bearer "

/-- Candidate-token extraction of `masterKeyAuth`:
`headerValue.toLowerCase().startsWith(BEARER_PREFIX) ?
headerValue.slice(BEARER_PREFIX.length).trim() : undefined`. -/
def extractCandidate (headerValue : String) : Option String :=
  if jsStartsWith (jsToLower headerValue) bearerPrefixConst then
    some (jsTrim (jsSlice headerValue bearerPrefixConst.length))
  else
    none

/-- The Anthropic-style 401 body of `masterKeyAuth`. -/
def anthropicAuthError : Json :=
  Json.obj
    [("type", Json.str "error"),
     ("error", Json.obj
       [("type", Json.str "authentication_error"),
        ("message", Json.str "Invalid or missing Authorization header")])]

/-- The OpenAI-style 401 body of `masterKeyAuth`. -/
def openAIAuthError : Json :=
  Json.obj
    [("error", Json.obj
       [("message", Json.str "Invalid or missing Authorization header"),
        ("type", Json.str "invalid_api_key")])]

/-- `masterKeyAuth` of `src/middleware/master-key.ts`, as the per-request
decision function.  `masterKeyEnv` is `process.env.MASTER_KEY` read once
when the middleware is built; the blank-secret case is the pass-through
middleware returned before any request is seen. -/
def masterKeyAuth (masterKeyEnv : Option String) (req : HttpRequest) : AuthDecision :=
  let configuredKey := jsTrim (masterKeyEnv.getD "")
  if configuredKey = "" then
    AuthDecision.allow
  else
    let headerValue := req.authorization.getD ""
    let candidate := extractCandidate headerValue
    if candidate = some configuredKey then
      AuthDecision.allow
    else if jsStartsWith req.path "/v1/messages" then
      AuthDecision.reject 401 anthropicAuthError
    else
      AuthDecision.reject 401 openAIAuthError

/-- A value of the parsed YAML document, as the JS value returned by
`parse` of the `yaml` package. -/
inductive YamlValue where
  | null
  | bool (b : Bool)
  | num (n : Int)
  | str (s : String)
  | arr (items : List YamlValue)
  | obj (fields : List (String × YamlValue))

/-- JS property access `value.key`: defined on objects, `undefined`
(`none`) on everything else. -/
def getField (v : YamlValue) (key : String) : Option YamlValue :=
  match v with
  | YamlValue.obj fields => fields.lookup key
  | _ => none

/-- The check `typeof account === "object" && account !== null` of
`normalizeAccount` (JS arrays and objects are both `typeof "object"`). -/
def isJsObject : YamlValue → Bool
  | YamlValue.obj _ => true
  | YamlValue.arr _ => true
  | _ => false

/-- `AccountDefinition` of `src/lib/account-config.ts`. -/
structure AccountDefinition where
  id : String
  githubToken : String
deriving DecidableEq, Repr

/-- `AccountsConfig` of `src/lib/account-config.ts`. -/
structure AccountsConfig where
  accounts : List AccountDefinition
  defaultAccountId : String
deriving DecidableEq, Repr

/-- The process environment: variable name to value, `none` when unset. -/
abbrev EnvMap := String → Option String

/-- The `\w` character class of `ENV_REF_REGEX`. -/
def isWordChar (c : Char) : Bool :=
  ('A' ≤ c && c ≤ 'Z') || ('a' ≤ c && c ≤ 'z') || ('0' ≤ c && c ≤ '9') || c = '_'

/-- Message of the error thrown by `resolveEnvReferences` when a
referenced variable is unset or empty. -/
def envVarError (accountId variableName : String) : String :=
  "Account \"" ++ accountId ++ "\" requires environment variable \""
    ++ variableName ++ "\" to be set"

/-- The environment lookup of the `replaceAll` callback:
`process.env[variableName]` must be a string and non-empty. -/
def lookupEnvVar (env : EnvMap) (accountId variableName : String) :
    Except String String :=
  match env variableName with
  | some v =>
    if v = "" then Except.error (envVarError accountId variableName)
    else Except.ok v
  | none => Except.error (envVarError accountId variableName)

/-- The braced alternative `\$\{(\w+)\}` of `ENV_REF_REGEX`, tried at the
position right after a `$`: returns the captured name and the input
remaining after the match. -/
def bracedRef (cs : List Char) : Option (String × List Char) :=
  match cs with
  | [] => none
  | c :: cs2 =>
    if c = '{' then
      let name := cs2.takeWhile isWordChar
      (match cs2.drop name.length with
       | [] => none
       | d :: rest =>
         if d = '}' then
           (if name = [] then none else some (⟨name⟩, rest))
         else none)
    else none

/-- The bare alternative `\$(\w+)` of `ENV_REF_REGEX`, tried at the
position right after a `$` when the braced alternative fails. -/
def bareRef (cs : List Char) : Option (String × List Char) :=
  let name := cs.takeWhile isWordChar
  if name = [] then none else some (⟨name⟩, cs.drop name.length)

/-- Whether some position of the string matches `ENV_REF_REGEX`, that
is, a `$` followed by either the braced or the bare alternative.  A
credential "contains no env references" exactly when this is `false`:
the string may still contain dollar signs that match neither
alternative. -/
def hasEnvRef : List Char → Bool
  | [] => false
  | c :: cs =>
    if c = '$' then
      (bracedRef cs).isSome || (bareRef cs).isSome || hasEnvRef cs
    else
      hasEnvRef cs

/-- The left-to-right scan performed by
`value.replaceAll(ENV_REF_REGEX, ...)` in `resolveEnvReferences`:
at each `$` the two regex alternatives are tried; on a match the
reference is replaced by the (mandatory) environment value and the scan
resumes after the match; a `$` matching neither alternative is kept as
literal text, like every other character. -/
def scanEnvRefs (env : EnvMap) (accountId : String) :
    List Char → Except String (List Char)
  | [] => Except.ok []
  | c :: cs =>
    if c = '$' then
      match h1 : bracedRef cs with
      | some (name, rest) =>
        (match lookupEnvVar env accountId name with
         | Except.error e => Except.error e
         | Except.ok v =>
           match scanEnvRefs env accountId rest with
           | Except.error e => Except.error e
           | Except.ok t => Except.ok (v.data ++ t))
      | none =>
        match h2 : bareRef cs with
        | some (name, rest) =>
          (match lookupEnvVar env accountId name with
           | Except.error e => Except.error e
           | Except.ok v =>
             match scanEnvRefs env accountId rest with
             | Except.error e => Except.error e
             | Except.ok t => Except.ok (v.data ++ t))
        | none =>
          match scanEnvRefs env accountId cs with
          | Except.error e => Except.error e
          | Except.ok t => Except.ok ('$' :: t)
    else
      match scanEnvRefs env accountId cs with
      | Except.error e => Except.error e
      | Except.ok t => Except.ok (c :: t)
termination_by l => l.length
decreasing_by
  · rename_i cs hd
    have hlt : rest.length < cs.length := by
      cases cs with
      | nil => simp [bracedRef] at h1
      | cons c2 cs2 =>
        simp only [bracedRef] at h1
        by_cases hc : c2 = '{'
        · rw [if_pos hc] at h1
          generalize hn : cs2.takeWhile isWordChar = nm at h1
          have hdl : (cs2.drop nm.length).length = cs2.length - nm.length :=
            List.length_drop _ _
          cases hdd : cs2.drop nm.length with
          | nil => rw [hdd] at h1; exact absurd h1 (by simp)
          | cons d2 rest2 =>
            rw [hdd] at h1 hdl
            have h1b : (if d2 = '}' then
                (if nm = [] then none else some ((⟨nm⟩ : String), rest2))
              else none) = some (name, rest) := h1
            by_cases hdc : d2 = '}'
            · rw [if_pos hdc] at h1b
              by_cases hne : nm = []
              · rw [if_pos hne] at h1b; exact absurd h1b (by simp)
              · rw [if_neg hne] at h1b
                have hre : rest2 = rest := by
                  have := Option.some.inj h1b
                  exact congrArg Prod.snd this
                subst hre
                simp only [List.length_cons] at hdl ⊢
                omega
            · rw [if_neg hdc] at h1b; exact absurd h1b (by simp)
        · rw [if_neg hc] at h1; exact absurd h1 (by simp)
    simp only [List.length_cons]
    omega
  · rename_i cs hd
    have hlt : rest.length < cs.length := by
      simp only [bareRef] at h2
      generalize hn : cs.takeWhile isWordChar = nm at h2
      by_cases hne : nm = []
      · rw [if_pos hne] at h2; exact absurd h2 (by simp)
      · rw [if_neg hne] at h2
        have hre : cs.drop nm.length = rest := by
          have := Option.some.inj h2
          exact congrArg Prod.snd this
        have hl1 : nm.length ≤ cs.length := by
          rw [← hn]; exact (List.takeWhile_sublist _).length_le
        have hl2 : 0 < nm.length := by
          cases nm with
          | nil => exact absurd rfl hne
          | cons a l => simp
        have hl3 : (cs.drop nm.length).length = cs.length - nm.length :=
          List.length_drop _ _
        rw [hre] at hl3
        omega
    simp only [List.length_cons]
    omega
  · simp only [List.length_cons]
    omega
  · simp only [List.length_cons]
    omega

/-- `resolveEnvReferences` of `src/lib/account-config.ts`. -/
def resolveEnvReferences (env : EnvMap) (value accountId : String) :
    Except String String :=
  (scanEnvRefs env accountId value.data).map String.mk

/-- `normalizeAccount` of `src/lib/account-config.ts`. -/
def normalizeAccount (env : EnvMap) (account : YamlValue) (index : Nat)
    (sourcePath : String) : Except String AccountDefinition :=
  if !(isJsObject account) then
    Except.error ("Account entry at index " ++ toString index ++ " in "
      ++ sourcePath ++ " must be an object")
  else
    match getField account "id" with
    | some (YamlValue.str id) =>
      if jsTrim id = "" then
        Except.error ("Account entry at index " ++ toString index ++ " in "
          ++ sourcePath ++ " must include a non-empty \"id\"")
      else
        (match getField account "github_token" with
         | some (YamlValue.str githubToken) =>
           if jsTrim githubToken = "" then
             Except.error ("Account \"" ++ id ++ "\" in " ++ sourcePath
               ++ " must include a non-empty \"github_token\"")
           else
             (resolveEnvReferences env githubToken id).map
               (fun t => ⟨id, t⟩)
         | _ =>
           Except.error ("Account \"" ++ id ++ "\" in " ++ sourcePath
             ++ " must include a non-empty \"github_token\""))
    | _ =>
      Except.error ("Account entry at index " ++ toString index ++ " in "
        ++ sourcePath ++ " must include a non-empty \"id\"")

/-- `accountsValue.map((account, index) => normalizeAccount(...))`, with
the first thrown error aborting the whole map. -/
def normalizeAccounts (env : EnvMap) (accounts : List YamlValue)
    (index : Nat) (sourcePath : String) :
    Except String (List AccountDefinition) :=
  match accounts with
  | [] => Except.ok []
  | a :: rest =>
    match normalizeAccount env a index sourcePath with
    | Except.error e => Except.error e
    | Except.ok acc =>
      match normalizeAccounts env rest (index + 1) sourcePath with
      | Except.error e => Except.error e
      | Except.ok accs => Except.ok (acc :: accs)

/-- `parseConfig` of `src/lib/account-config.ts`.  `yamlParse` is the
external `yaml` package's `parse`, returning `none` for a document that
parses to `null`/`undefined` (the source substitutes `{}` via `?? {}`).
The `accounts[0]` access is modelled with `headD`; it is reached only
with a non-empty list because `accountsValue.length === 0` was ruled out
and normalization preserves length. -/
def parseConfig (yamlParse : String → Except String (Option YamlValue))
    (env : EnvMap) (raw sourcePath : String) : Except String AccountsConfig :=
  match yamlParse raw with
  | Except.error e =>
    Except.error ("Failed to parse accounts config (" ++ sourcePath ++ "): " ++ e)
  | Except.ok parsed =>
    let document := parsed.getD (YamlValue.obj [])
    match getField document "accounts" with
    | some (YamlValue.arr items) =>
      if items.isEmpty then
        Except.error ("Accounts config must define at least one account in "
          ++ sourcePath)
      else
        (match normalizeAccounts env items 0 sourcePath with
         | Except.error e => Except.error e
         | Except.ok accounts =>
           Except.ok ⟨accounts, (accounts.headD ⟨"", ""⟩).id⟩)
    | _ =>
      Except.error ("Accounts config must define at least one account in "
        ++ sourcePath)

/-- The externals consumed by `getAccountsConfig`: the process
environment, the filesystem (`none` = absent/unreadable, making
`readFileSync` throw), the working directory and `path.resolve`. -/
structure World where
  env : EnvMap
  readFile : String → Option String
  cwd : String
  resolvePath : String → String

/-- `DEFAULT_CONFIG_PATH = path.join(process.cwd(), "config.yaml")`. -/
def defaultConfigPath (cwd : String) : String :=
  cwd ++ "/config.yaml"

/-- The config-path selection of `getAccountsConfig`: a set, non-blank
`ACCOUNTS_CONFIG` is resolved to an absolute path, anything else falls
back to the default location. -/
def selectConfigPath (w : World) : String :=
  match w.env "ACCOUNTS_CONFIG" with
  | some p =>
    if (jsTrim p).length > 0 then w.resolvePath p else defaultConfigPath w.cwd
  | none => defaultConfigPath w.cwd

/-- `readConfigFile` of `src/lib/account-config.ts` (the source logs this
message and rethrows the filesystem error). -/
def readConfigFile (w : World) (configPath : String) : Except String String :=
  match w.readFile configPath with
  | some contents => Except.ok contents
  | none =>
    Except.error ("accounts config not found at " ++ configPath
      ++ ". Provide a config.yaml or set ACCOUNTS_CONFIG")

/-- The cache-miss path of `getAccountsConfig`: select the path, read the
file, parse, all against the current world. -/
def resolveFresh (yamlParse : String → Except String (Option YamlValue))
    (w : World) : Except String AccountsConfig :=
  let configPath := selectConfigPath w
  match readConfigFile w configPath with
  | Except.error e => Except.error e
  | Except.ok contents => parseConfig yamlParse w.env contents configPath

/-- `getAccountsConfig` of `src/lib/account-config.ts`, with the
module-level `cachedConfig` slot passed and returned explicitly.  On a
hit the cached value is returned untouched; on a successful miss the
result is written to the slot before being returned; a thrown error
leaves the slot as it was (the assignment is never reached). -/
def getAccountsConfig (yamlParse : String → Except String (Option YamlValue))
    (w : World) (cachedConfig : Option AccountsConfig) :
    Except String AccountsConfig × Option AccountsConfig :=
  match cachedConfig with
  | some cfg => (Except.ok cfg, some cfg)
  | none =>
    match resolveFresh yamlParse w with
    | Except.ok parsed => (Except.ok parsed, some parsed)
    | Except.error e => (Except.error e, none)

/-- `resetAccountsConfigCache` of `src/lib/account-config.ts`. -/
def resetAccountsConfigCache (_cachedConfig : Option AccountsConfig) :
    Option AccountsConfig :=
  none

/-- The two-account example document of spec section 8, as parsed YAML. -/
def sampleAccountA : YamlValue :=
  YamlValue.obj
    [("id", YamlValue.str "primary"), ("github_token", YamlValue.str "token-one")]

/-- Second entry of the example document. -/
def sampleAccountB : YamlValue :=
  YamlValue.obj
    [("id", YamlValue.str "backup"), ("github_token", YamlValue.str "token-two")]

/-- The example document itself. -/
def sampleDoc : YamlValue :=
  YamlValue.obj [("accounts", YamlValue.arr [sampleAccountA, sampleAccountB])]

/-- A stub of the external YAML parser that yields the example document. -/
def sampleParse : String → Except String (Option YamlValue) :=
  fun _ => Except.ok (some sampleDoc)

/-- An environment with no variables set. -/
def emptyEnv : EnvMap := fun _ => none

/-- A world with no ACCOUNTS_CONFIG override and a readable default file. -/
def sampleWorld : World :=
  ⟨emptyEnv, fun _ => some "", "/app", fun p => p⟩

/-- The account set the example document resolves to. -/
def sampleCfg : AccountsConfig :=
  ⟨[⟨"primary", "token-one"⟩, ⟨"backup", "token-two"⟩], "primary"⟩

/-- An account entry used twice in a document to exhibit duplicate ids. -/
def dupAccountEntry : YamlValue :=
  YamlValue.obj [("id", YamlValue.str "a"), ("github_token", YamlValue.str "t")]

/-- A document whose two entries share the id "a". -/
def dupAccountsDoc : YamlValue :=
  YamlValue.obj [("accounts", YamlValue.arr [dupAccountEntry, dupAccountEntry])]


theorem scanEnvRefs_nil (env : EnvMap) (accountId : String) :
    scanEnvRefs env accountId [] = Except.ok [] := by
  simp [scanEnvRefs]

theorem scanEnvRefs_cons_ne (env : EnvMap) (accountId : String)
    (c : Char) (cs : List Char) (hc : c ≠ '$') :
    scanEnvRefs env accountId (c :: cs) =
      (scanEnvRefs env accountId cs).map (fun t => c :: t) := by
  rw [scanEnvRefs]
  rw [if_neg hc]
  cases scanEnvRefs env accountId cs <;> simp [Except.map]

theorem scanEnvRefs_dollar_braced (env : EnvMap) (accountId : String)
    {cs : List Char} {name : String} {rest : List Char}
    (h : bracedRef cs = some (name, rest)) :
    scanEnvRefs env accountId ('$' :: cs) =
      (match lookupEnvVar env accountId name with
       | Except.error e => Except.error e
       | Except.ok v => (scanEnvRefs env accountId rest).map (fun t => v.data ++ t)) := by
  rw [scanEnvRefs]
  rw [if_pos rfl]
  split
  · next name2 rest2 heq =>
    rw [h] at heq
    cases heq
    cases lookupEnvVar env accountId name with
    | error e => simp
    | ok v => cases scanEnvRefs env accountId rest <;> simp [Except.map]
  · next heq =>
    rw [h] at heq
    exact absurd heq (by simp)

theorem scanEnvRefs_dollar_bare (env : EnvMap) (accountId : String)
    {cs : List Char} {name : String} {rest : List Char}
    (hb : bracedRef cs = none) (h : bareRef cs = some (name, rest)) :
    scanEnvRefs env accountId ('$' :: cs) =
      (match lookupEnvVar env accountId name with
       | Except.error e => Except.error e
       | Except.ok v => (scanEnvRefs env accountId rest).map (fun t => v.data ++ t)) := by
  rw [scanEnvRefs]
  rw [if_pos rfl]
  split
  · next name2 rest2 heq => rw [hb] at heq; exact absurd heq (by simp)
  · next heq =>
    split
    · next name2 rest2 heq2 =>
      rw [h] at heq2
      cases heq2
      cases lookupEnvVar env accountId name with
      | error e => simp
      | ok v => cases scanEnvRefs env accountId rest <;> simp [Except.map]
    · next heq2 =>
      rw [h] at heq2
      exact absurd heq2 (by simp)

theorem scanEnvRefs_dollar_literal (env : EnvMap) (accountId : String)
    {cs : List Char} (hb : bracedRef cs = none) (h : bareRef cs = none) :
    scanEnvRefs env accountId ('$' :: cs) =
      (scanEnvRefs env accountId cs).map (fun t => '$' :: t) := by
  rw [scanEnvRefs]
  rw [if_pos rfl]
  split
  · next name2 rest2 heq => rw [hb] at heq; exact absurd heq (by simp)
  · split
    · next name2 rest2 heq2 => rw [h] at heq2; exact absurd heq2 (by simp)
    · cases scanEnvRefs env accountId cs <;> simp [Except.map]

theorem string_data_inj {a b : String} (h : a.data = b.data) : a = b := by
  cases a; cases b; exact congrArg String.mk h

theorem string_mk_data (s : String) : String.mk s.data = s := by
  cases s; rfl

theorem scanEnvRefs_append_nodollar (env : EnvMap) (accountId : String)
    (p rest : List Char) (hp : ∀ c ∈ p, c ≠ '$') :
    scanEnvRefs env accountId (p ++ rest) =
      (scanEnvRefs env accountId rest).map (fun t => p ++ t) := by
  induction p with
  | nil =>
    simp only [List.nil_append]
    cases scanEnvRefs env accountId rest <;> simp [Except.map]
  | cons c p2 ih =>
    have hc : c ≠ '$' := hp c (by simp)
    have ih2 := ih (fun d hd => hp d (by simp [hd]))
    rw [List.cons_append, scanEnvRefs_cons_ne env accountId c (p2 ++ rest) hc, ih2]
    cases scanEnvRefs env accountId rest <;> simp [Except.map]

theorem takeWhile_word_split (X s : List Char)
    (hX : ∀ c ∈ X, isWordChar c = true)
    (hs : ∀ c, s.head? = some c → isWordChar c = false) :
    (X ++ s).takeWhile isWordChar = X := by
  induction X with
  | nil =>
    simp only [List.nil_append]
    cases s with
    | nil => rfl
    | cons c s2 =>
      have := hs c rfl
      simp [List.takeWhile, this]
  | cons c X2 ih =>
    have hc : isWordChar c = true := hX c (by simp)
    have ih2 := ih (fun d hd => hX d (by simp [hd]))
    simp [List.takeWhile, hc, ih2]

theorem bracedRef_at_ref (X s : List Char) (hne : X ≠ [])
    (hX : ∀ c ∈ X, isWordChar c = true) :
    bracedRef ('{' :: (X ++ '}' :: s)) = some (⟨X⟩, s) := by
  have hw : (X ++ '}' :: s).takeWhile isWordChar = X :=
    takeWhile_word_split X ('}' :: s) hX (fun c hc => by
      cases Option.some.inj hc; rfl)
  simp only [bracedRef, if_pos rfl, hw]
  rw [List.drop_left]
  simp [hne]

theorem bareRef_at_ref (X s : List Char) (hne : X ≠ [])
    (hX : ∀ c ∈ X, isWordChar c = true)
    (hs : ∀ c, s.head? = some c → isWordChar c = false) :
    bareRef (X ++ s) = some (⟨X⟩, s) := by
  have hw : (X ++ s).takeWhile isWordChar = X :=
    takeWhile_word_split X s hX hs
  simp only [bareRef, hw]
  rw [List.drop_left]
  simp [hne]

theorem bracedRef_not_brace {c : Char} (cs : List Char) (hc : c ≠ '{') :
    bracedRef (c :: cs) = none := by
  simp [bracedRef, hc]

theorem bareRef_no_word (cs : List Char)
    (hs : ∀ c, cs.head? = some c → isWordChar c = false) :
    bareRef cs = none := by
  have hw : cs.takeWhile isWordChar = [] := by
    cases cs with
    | nil => rfl
    | cons c cs2 =>
      have := hs c rfl
      simp [List.takeWhile, this]
  simp [bareRef, hw]


theorem bracedRef_empty_name (cs : List Char) :
    bracedRef ('{' :: '}' :: cs) = none := by
  have h1 : isWordChar '}' = false := rfl
  simp [bracedRef, List.takeWhile, h1]

theorem resolve_plain_ok (env : EnvMap) (value accountId : String)
    (h : ∀ c ∈ value.data, c ≠ '$') :
    resolveEnvReferences env value accountId = Except.ok value := by
  unfold resolveEnvReferences
  have h2 := scanEnvRefs_append_nodollar env accountId value.data [] h
  rw [List.append_nil, scanEnvRefs_nil] at h2
  simp only [Except.map] at h2
  rw [h2]
  simp [Except.map, List.append_nil, string_mk_data]

theorem scanEnvRefs_no_match (env : EnvMap) (accountId : String) :
    ∀ l : List Char, hasEnvRef l = false →
      scanEnvRefs env accountId l = Except.ok l := by
  intro l
  induction l with
  | nil => intro _; exact scanEnvRefs_nil env accountId
  | cons c cs ih =>
    intro h
    by_cases hc : c = '$'
    · subst hc
      rw [show hasEnvRef ('$' :: cs) =
          ((bracedRef cs).isSome || (bareRef cs).isSome || hasEnvRef cs)
        from by simp [hasEnvRef]] at h
      have hb : bracedRef cs = none := by
        cases hbr : bracedRef cs with
        | none => rfl
        | some p => rw [hbr] at h; simp at h
      have hbare : bareRef cs = none := by
        cases hbr : bareRef cs with
        | none => rfl
        | some p => rw [hbr] at h; simp at h
      have htail : hasEnvRef cs = false := by
        rw [hb, hbare] at h
        simpa using h
      rw [scanEnvRefs_dollar_literal env accountId hb hbare, ih htail]
      simp [Except.map]
    · have htail : hasEnvRef cs = false := by
        rw [show hasEnvRef (c :: cs) = hasEnvRef cs
          from by simp [hasEnvRef, hc]] at h
        exact h
      rw [scanEnvRefs_cons_ne env accountId c cs hc, ih htail]
      simp [Except.map]

/-- C9: environment-reference substitution is a left-to-right two-token
scanner for the braced and bare reference forms; an isolated dollar sign
not followed by a valid name (before a non-word non-brace character, at
the end of the string, or as the empty braced form) is left in the
output as literal text, neither substituted nor raising an error. -/
theorem resolveEnvReferences_literal_dollar (env : EnvMap) (accountId : String) :
    (∀ rest : String,
      (∀ c, rest.data.head? = some c → isWordChar c = false ∧ c ≠ '{') →
      resolveEnvReferences env ("$" ++ rest) accountId =
        (resolveEnvReferences env rest accountId).map (fun t => "$" ++ t))
    ∧ (∀ rest : String,
      resolveEnvReferences env ("$\x7b\x7d" ++ rest) accountId =
        (resolveEnvReferences env rest accountId).map (fun t => "$\x7b\x7d" ++ t)) := by
  constructor
  · intro rest hhead
    have hb : bracedRef rest.data = none := by
      cases hr : rest.data with
      | nil => rfl
      | cons c cs2 =>
        have := hhead c (by rw [hr]; rfl)
        exact bracedRef_not_brace cs2 this.2
    have hbare : bareRef rest.data = none :=
      bareRef_no_word rest.data (fun c hc => (hhead c hc).1)
    have hdata : ("$" ++ rest).data = '$' :: rest.data := by
      simp [String.data_append]
    unfold resolveEnvReferences
    rw [hdata, scanEnvRefs_dollar_literal env accountId hb hbare]
    cases scanEnvRefs env accountId rest.data <;> simp [Except.map] <;>
      (apply string_data_inj; simp [String.data_append])
  · intro rest
    have hdata : ("$\x7b\x7d" ++ rest).data = '$' :: '{' :: '}' :: rest.data := by
      simp [String.data_append]
    have hb : bracedRef ('{' :: '}' :: rest.data) = none :=
      bracedRef_empty_name rest.data
    have hbare : bareRef ('{' :: '}' :: rest.data) = none :=
      bareRef_no_word _ (fun c hc => by cases Option.some.inj hc; rfl)
    have happ := scanEnvRefs_append_nodollar env accountId ['{', '}'] rest.data
      (by intro c hc; fin_cases hc <;> simp)
    unfold resolveEnvReferences
    rw [hdata, scanEnvRefs_dollar_literal env accountId hb hbare]
    rw [show ('{' :: '}' :: rest.data) = ['{', '}'] ++ rest.data from rfl, happ]
    cases scanEnvRefs env accountId rest.data <;> simp [Except.map] <;>
      (apply string_data_inj; simp [String.data_append])

/-- After a matched reference with name `X` and remainder `srest`, the
lookup-then-continue shape, with a `$`-free prefix `p` in front and the
final `String.mk`, reduces to the two claimed outcomes. -/
theorem resolve_ref_outcomes (env : EnvMap) (accountId : String)
    (p : String) (hp : ∀ c ∈ p.data, c ≠ '$')
    (whole : String) (X : String) (s : String)
    (hdata : whole.data = p.data ++ '$' :: midRef)
    (hstep : scanEnvRefs env accountId ('$' :: midRef) =
      (match lookupEnvVar env accountId X with
       | Except.error e => Except.error e
       | Except.ok v =>
         (scanEnvRefs env accountId s.data).map (fun t => v.data ++ t))) :
    (∀ v, env X = some v → v ≠ "" →
      resolveEnvReferences env whole accountId =
        (resolveEnvReferences env s accountId).map (fun t => p ++ v ++ t))
    ∧ ((env X = none ∨ env X = some "") →
      resolveEnvReferences env whole accountId =
        Except.error (envVarError accountId X)) := by
  have happ := scanEnvRefs_append_nodollar env accountId p.data ('$' :: midRef) hp
  constructor
  · intro v hv hvne
    have hlk : lookupEnvVar env accountId X = Except.ok v := by
      simp [lookupEnvVar, hv, hvne]
    unfold resolveEnvReferences
    rw [hdata, happ, hstep, hlk]
    cases scanEnvRefs env accountId s.data <;> simp [Except.map] <;>
      (apply string_data_inj; simp [String.data_append])
  · intro hmiss
    have hlk : lookupEnvVar env accountId X =
        Except.error (envVarError accountId X) := by
      rcases hmiss with hnone | hempty
      · simp [lookupEnvVar, hnone]
      · simp [lookupEnvVar, hempty]
    unfold resolveEnvReferences
    rw [hdata, happ, hstep, hlk]
    simp [Except.map]

/-- C3: a credential containing a braced or bare reference to variable
X is substituted with the environment value of X when X is set and
non-empty; when X is unset or empty the whole resolution fails with the
error naming both X and the owning account id, so no partially
substituted value is ever produced. -/
theorem resolveEnvReferences_env_ref (env : EnvMap) (accountId p X s : String)
    (hp : ∀ c ∈ p.data, c ≠ '$')
    (hXne : X.data ≠ []) (hX : ∀ c ∈ X.data, isWordChar c = true) :
    ((∀ v, env X = some v → v ≠ "" →
      resolveEnvReferences env (p ++ "$\x7b" ++ X ++ "\x7d" ++ s) accountId =
        (resolveEnvReferences env s accountId).map (fun t => p ++ v ++ t))
    ∧ ((env X = none ∨ env X = some "") →
      resolveEnvReferences env (p ++ "$\x7b" ++ X ++ "\x7d" ++ s) accountId =
        Except.error (envVarError accountId X)))
    ∧ ((∀ c, s.data.head? = some c → isWordChar c = false) →
      (∀ v, env X = some v → v ≠ "" →
        resolveEnvReferences env (p ++ "$" ++ X ++ s) accountId =
          (resolveEnvReferences env s accountId).map (fun t => p ++ v ++ t))
      ∧ ((env X = none ∨ env X = some "") →
        resolveEnvReferences env (p ++ "$" ++ X ++ s) accountId =
          Except.error (envVarError accountId X))) := by
  constructor
  · have hdata : (p ++ "$\x7b" ++ X ++ "\x7d" ++ s).data =
        p.data ++ '$' :: ('{' :: (X.data ++ '}' :: s.data)) := by
      simp [String.data_append]
    have hbr : bracedRef ('{' :: (X.data ++ '}' :: s.data)) =
        some (⟨X.data⟩, s.data) := bracedRef_at_ref X.data s.data hXne hX
    have hstep := scanEnvRefs_dollar_braced env accountId hbr
    rw [string_mk_data X] at hstep
    exact resolve_ref_outcomes env accountId p hp _ X s hdata hstep
  · intro hs
    have hdata : (p ++ "$" ++ X ++ s).data =
        p.data ++ '$' :: (X.data ++ s.data) := by
      simp [String.data_append]
    have hbr : bracedRef (X.data ++ s.data) = none := by
      cases hXd : X.data with
      | nil => exact absurd hXd hXne
      | cons c cs2 =>
        have hcw : isWordChar c = true := by
          apply hX; rw [hXd]; simp
        have hcb : c ≠ '{' := by
          intro hcontra
          rw [hcontra] at hcw
          exact absurd hcw (by decide)
        rw [List.cons_append]
        exact bracedRef_not_brace _ hcb
    have hbare : bareRef (X.data ++ s.data) = some (⟨X.data⟩, s.data) :=
      bareRef_at_ref X.data s.data hXne hX hs
    have hstep := scanEnvRefs_dollar_bare env accountId hbr hbare
    rw [string_mk_data X] at hstep
    exact resolve_ref_outcomes env accountId p hp _ X s hdata hstep

theorem toNat_ofNat_shift (n : Nat) (h1 : 65 ≤ n) (h2 : n ≤ 90) :
    (Char.ofNat (n + 32)).toNat = n + 32 := by
  have hv : Nat.isValidChar (n + 32) := by left; omega
  simp only [Char.ofNat, dif_pos hv, Char.ofNatAux, Char.toNat, UInt32.toNat]
  simp [BitVec.toNat_ofNatLt]

theorem toLower_eq_space {c : Char} (h : Char.toLower c = ' ') : c = ' ' := by
  by_cases hc : c.toNat ≥ 65 ∧ c.toNat ≤ 90
  · exfalso
    have h2 : Char.toLower c = Char.ofNat (c.toNat + 32) := by
      simp [Char.toLower, hc]
    rw [h2] at h
    have h3 := congrArg Char.toNat h
    rw [toNat_ofNat_shift c.toNat hc.1 hc.2] at h3
    have h4 : (' ' : Char).toNat = 32 := by decide
    omega
  · have h2 : Char.toLower c = c := by simp [Char.toLower, hc]
    rw [h2] at h
    exact h

/-- C7: when the master secret is unset or blank after trimming, the
gate allows every request, whatever its Authorization header or path. -/
theorem masterKeyAuth_blank_allows (masterKeyEnv : Option String)
    (req : HttpRequest) (h : jsTrim (masterKeyEnv.getD "") = "") :
    masterKeyAuth masterKeyEnv req = AuthDecision.allow := by
  simp [masterKeyAuth, h]

/-- C1: with a non-blank master secret configured, the gate allows a
request exactly when the Authorization header yields a candidate token
equal to the secret; every other request is rejected with status 401 and
the Anthropic-style body on paths starting with /v1/messages, the
OpenAI-style body on every other path. -/
theorem masterKeyAuth_gate_decision (masterKeyEnv : Option String)
    (req : HttpRequest) (hk : jsTrim (masterKeyEnv.getD "") ≠ "") :
    (masterKeyAuth masterKeyEnv req = AuthDecision.allow ↔
      extractCandidate (req.authorization.getD "") =
        some (jsTrim (masterKeyEnv.getD "")))
    ∧ (extractCandidate (req.authorization.getD "") ≠
        some (jsTrim (masterKeyEnv.getD "")) →
      masterKeyAuth masterKeyEnv req =
        (if jsStartsWith req.path "/v1/messages" then
          AuthDecision.reject 401 (Json.obj
            [("type", Json.str "error"),
             ("error", Json.obj
               [("type", Json.str "authentication_error"),
                ("message", Json.str "Invalid or missing Authorization header")])])
        else
          AuthDecision.reject 401 (Json.obj
            [("error", Json.obj
               [("message", Json.str "Invalid or missing Authorization header"),
                ("type", Json.str "invalid_api_key")])]))) := by
  constructor
  · by_cases hc : extractCandidate (req.authorization.getD "") =
        some (jsTrim (masterKeyEnv.getD ""))
    · simp [masterKeyAuth, hk, hc]
    · simp only [masterKeyAuth, if_neg hk, if_neg hc]
      constructor
      · intro hcontra
        split at hcontra <;> exact absurd hcontra (by simp)
      · intro hcontra
        exact absurd hcontra hc
  · intro hc
    simp only [masterKeyAuth, if_neg hk, if_neg hc]
    split <;> rfl

theorem bearer_data_split :
    bearerPrefixConst.data = "bearer".data ++ [' '] := by decide

theorem extractCandidate_some_iff (headerValue : String) :
    (extractCandidate headerValue).isSome = true ↔
      ∃ scheme rest, headerValue = scheme ++ " " ++ rest ∧
        jsToLower scheme = "bearer" := by
  constructor
  · intro hsome
    have hpref : jsStartsWith (jsToLower headerValue) bearerPrefixConst = true := by
      by_cases hp : jsStartsWith (jsToLower headerValue) bearerPrefixConst = true
      · exact hp
      · exfalso
        simp only [extractCandidate, if_neg hp] at hsome
        exact absurd hsome (by simp)
    have hpre2 : bearerPrefixConst.data <+: headerValue.data.map Char.toLower := by
      rw [← List.isPrefixOf_iff_prefix]
      exact hpref
    obtain ⟨t, ht⟩ := hpre2
    have hmap : headerValue.data.map Char.toLower = bearerPrefixConst.data ++ t :=
      ht.symm
    rw [List.map_eq_append_iff] at hmap
    obtain ⟨l1, l2, hsplit, hl1, hl2⟩ := hmap
    rw [bearer_data_split] at hl1
    rw [List.map_eq_append_iff] at hl1
    obtain ⟨u, w, hsplit2, hu, hw⟩ := hl1
    cases w with
    | nil => exact absurd hw (by simp)
    | cons c w2 =>
      cases w2 with
      | cons d w3 => exact absurd hw (by simp)
      | nil =>
        have hc : Char.toLower c = ' ' := by simpa using hw
        have hcsp : c = ' ' := toLower_eq_space hc
        refine ⟨⟨u⟩, ⟨l2⟩, ?_, ?_⟩
        · apply string_data_inj
          simp only [String.data_append]
          simp [hsplit, hsplit2, hcsp]
        · apply string_data_inj
          simpa [jsToLower] using hu
  · rintro ⟨scheme, rest, hfull, hlow⟩
    have hlowdata : scheme.data.map Char.toLower = "bearer".data :=
      congrArg String.data hlow
    have hdata : headerValue.data = scheme.data ++ ' ' :: rest.data := by
      rw [hfull]
      simp [String.data_append]
    have hmap : headerValue.data.map Char.toLower =
        bearerPrefixConst.data ++ rest.data.map Char.toLower := by
      rw [hdata, bearer_data_split]
      simp only [List.map_append, List.map_cons, hlowdata]
      simp [show Char.toLower ' ' = ' ' from rfl]
    have hpref : jsStartsWith (jsToLower headerValue) bearerPrefixConst = true := by
      show bearerPrefixConst.data.isPrefixOf (jsToLower headerValue).data = true
      rw [ List.isPrefixOf_iff_prefix]
      have hjl : (jsToLower headerValue).data = headerValue.data.map Char.toLower := rfl
      rw [hjl, hmap]
      exact List.prefix_append _ _
    simp [extractCandidate, hpref]

theorem normalizeAccounts_ok {env : EnvMap} {l : List YamlValue} {i : Nat}
    {sourcePath : String} {accs : List AccountDefinition}
    (h : normalizeAccounts env l i sourcePath = Except.ok accs) :
    accs.length = l.length ∧
    ∀ k (hk : k < l.length) (hk2 : k < accs.length),
      normalizeAccount env (l.get ⟨k, hk⟩) (i + k) sourcePath =
        Except.ok (accs.get ⟨k, hk2⟩) := by
  induction l generalizing i accs with
  | nil =>
    simp only [normalizeAccounts] at h
    have : accs = [] := by
      cases accs with
      | nil => rfl
      | cons a l2 => exact absurd h (by simp)
    subst this
    exact ⟨rfl, fun k hk => absurd hk (by simp)⟩
  | cons a rest ih =>
    simp only [normalizeAccounts] at h
    generalize hna : normalizeAccount env a i sourcePath = na at h
    cases na with
    | error e => exact absurd h (by simp)
    | ok acc =>
      generalize hnr : normalizeAccounts env rest (i + 1) sourcePath = nr at h
      cases nr with
      | error e => exact absurd h (by simp)
      | ok accs2 =>
        have haccs : accs = acc :: accs2 := by
          have := Except.ok.inj h
          exact this.symm
        subst haccs
        obtain ⟨hlen, hpt⟩ := ih hnr
        constructor
        · simp [hlen]
        · intro k hk hk2
          cases k with
          | zero =>
            simp only [List.get]
            rw [Nat.add_zero]
            exact hna
          | succ k2 =>
            simp only [List.get]
            have hk2a : k2 < rest.length := by
              simp only [List.length_cons] at hk
              omega
            have hk2b : k2 < accs2.length := by
              simp only [List.length_cons] at hk2
              omega
            have := hpt k2 hk2a hk2b
            rw [show i + (k2 + 1) = i + 1 + k2 by omega]
            exact this

/-- C2: for a well-formed document whose accounts sequence has N >= 1
entries that all normalize, parsing yields exactly N account entries in
declaration order and the default account id is the first entry's id. -/
theorem parseConfig_shape (yamlParse : String → Except String (Option YamlValue))
    (env : EnvMap) (raw sourcePath : String) (doc : YamlValue)
    (items : List YamlValue) (accs : List AccountDefinition)
    (hparse : yamlParse raw = Except.ok (some doc))
    (hacc : getField doc "accounts" = some (YamlValue.arr items))
    (hne : items ≠ [])
    (hnorm : normalizeAccounts env items 0 sourcePath = Except.ok accs) :
    ∃ cfg, parseConfig yamlParse env raw sourcePath = Except.ok cfg ∧
      cfg.accounts = accs ∧
      accs.length = items.length ∧
      (∀ k (hk : k < items.length) (hk2 : k < accs.length),
        normalizeAccount env (items.get ⟨k, hk⟩) k sourcePath =
          Except.ok (accs.get ⟨k, hk2⟩)) ∧
      (∀ a rest2, accs = a :: rest2 → cfg.defaultAccountId = a.id) := by
  obtain ⟨hlen, hpt⟩ := normalizeAccounts_ok hnorm
  refine ⟨⟨accs, (accs.headD ⟨"", ""⟩).id⟩, ?_, rfl, ?_, ?_, ?_⟩
  · simp only [parseConfig, hparse, Option.getD, hacc]
    rw [if_neg (by simpa using hne)]
    rw [hnorm]
  · exact hlen
  · intro k hk hk2
    have := hpt k hk hk2
    rw [show (0 : Nat) + k = k by omega] at this
    exact this
  · intro a rest2 haccs
    subst haccs
    rfl

/-- C6 (amended): every account set produced by the parser has a
defaultAccountId that is the id of a member of accounts (the first one);
id uniqueness is not enforced by the code. -/
theorem parseConfig_default_is_member
    (yamlParse : String → Except String (Option YamlValue)) (env : EnvMap)
    (raw sourcePath : String) (cfg : AccountsConfig)
    (h : parseConfig yamlParse env raw sourcePath = Except.ok cfg) :
    cfg.defaultAccountId ∈ cfg.accounts.map AccountDefinition.id := by
  simp only [parseConfig] at h
  split at h
  · exact absurd h (by simp)
  · split at h
    · next items heq2 =>
      split at h
      · exact absurd h (by simp)
      · next hni =>
        generalize hn : normalizeAccounts env items 0 sourcePath = nr at h
        cases nr with
        | error e => exact absurd h (by simp)
        | ok accounts =>
          have hcfg : cfg = ⟨accounts, (accounts.headD ⟨"", ""⟩).id⟩ :=
            (Except.ok.inj h).symm
          subst hcfg
          have hlen := (normalizeAccounts_ok hn).1
          cases accounts with
          | nil =>
            exfalso
            have hitems : items = [] := by
              cases items with
              | nil => rfl
              | cons x xs => simp at hlen
            rw [hitems] at hni
            exact hni (by simp)
          | cons a rest => simp
    · exact absurd h (by simp)

/-- C6 (counterexample): a document with two accounts that share the id
"a" parses successfully, so the ids of a returned set need not be
pairwise distinct. -/
theorem parseConfig_duplicate_ids :
    parseConfig (fun _ => Except.ok (some dupAccountsDoc)) (fun _ => none)
        "" "config.yaml" =
      Except.ok ⟨[⟨"a", "t"⟩, ⟨"a", "t"⟩], "a"⟩
    ∧ ¬ (List.map AccountDefinition.id
          [(⟨"a", "t"⟩ : AccountDefinition), ⟨"a", "t"⟩]).Nodup := by
  have hres : resolveEnvReferences (fun _ => none) "t" "a" = Except.ok "t" :=
    resolve_plain_ok _ _ _ (by decide)
  have hna : ∀ idx : Nat,
      normalizeAccount (fun _ => none) dupAccountEntry idx "config.yaml" =
        (resolveEnvReferences (fun _ => none) "t" "a").map
          (fun t => ⟨"a", t⟩) :=
    fun _ => rfl
  have hna2 : ∀ idx : Nat,
      normalizeAccount (fun _ => none) dupAccountEntry idx "config.yaml" =
        Except.ok ⟨"a", "t"⟩ := by
    intro idx
    rw [hna idx, hres]
    rfl
  have hnorm : normalizeAccounts (fun _ => none)
      [dupAccountEntry, dupAccountEntry] 0 "config.yaml" =
      Except.ok [⟨"a", "t"⟩, ⟨"a", "t"⟩] := by
    simp only [normalizeAccounts, hna2]
  constructor
  · have hstep : parseConfig (fun _ => Except.ok (some dupAccountsDoc))
        (fun _ => none) "" "config.yaml" =
        (match normalizeAccounts (fun _ => none)
            [dupAccountEntry, dupAccountEntry] 0 "config.yaml" with
         | Except.error e => Except.error e
         | Except.ok accounts =>
           Except.ok ⟨accounts, (accounts.headD ⟨"", ""⟩).id⟩) := rfl
    rw [hstep, hnorm]
    rfl
  · decide

/-- C4: after a successful resolution the cache slot holds the result,
and any later call, against any filesystem and environment, returns the
identical cached set without re-reading; after a reset the next call is
the fresh resolution against the current world. -/
theorem getAccountsConfig_caches
    (yamlParse : String → Except String (Option YamlValue)) (w : World)
    (cfg : AccountsConfig) (st2 : Option AccountsConfig)
    (h : getAccountsConfig yamlParse w none = (Except.ok cfg, st2)) :
    st2 = some cfg
    ∧ (∀ (yamlParse2 : String → Except String (Option YamlValue)) (w2 : World),
        getAccountsConfig yamlParse2 w2 st2 = (Except.ok cfg, st2))
    ∧ (∀ (yamlParse3 : String → Except String (Option YamlValue)) (w3 : World),
        (getAccountsConfig yamlParse3 w3 (resetAccountsConfigCache st2)).1 =
          resolveFresh yamlParse3 w3) := by
  simp only [getAccountsConfig] at h
  generalize hf : resolveFresh yamlParse w = fr at h
  cases fr with
  | error e =>
    exfalso
    have h1 := congrArg Prod.fst h
    exact absurd h1 (by simp)
  | ok parsed =>
    have h1 := congrArg Prod.fst h
    have h2 := congrArg Prod.snd h
    simp only at h1 h2
    have hpc : parsed = cfg := Except.ok.inj h1
    subst hpc
    refine ⟨h2.symm ▸ rfl, ?_, ?_⟩
    · intro yamlParse2 w2
      rw [← h2]
      rfl
    · intro yamlParse3 w3
      simp only [resetAccountsConfigCache, getAccountsConfig]
      cases resolveFresh yamlParse3 w3 <;> rfl

/-- C10: when resolution fails the cache slot is left empty, so a
subsequent call resolves freshly against the current world instead of
returning a cached failure. -/
theorem getAccountsConfig_error_leaves_cache_empty
    (yamlParse : String → Except String (Option YamlValue)) (w : World)
    (e : String) (st2 : Option AccountsConfig)
    (h : getAccountsConfig yamlParse w none = (Except.error e, st2)) :
    st2 = none
    ∧ (∀ (yamlParse2 : String → Except String (Option YamlValue)) (w2 : World),
        (getAccountsConfig yamlParse2 w2 st2).1 = resolveFresh yamlParse2 w2) := by
  simp only [getAccountsConfig] at h
  generalize hf : resolveFresh yamlParse w = fr at h
  cases fr with
  | ok parsed =>
    exfalso
    have h1 := congrArg Prod.fst h
    exact absurd h1 (by simp)
  | error e2 =>
    have h2 := congrArg Prod.snd h
    simp only at h2
    constructor
    · exact h2.symm
    · intro yamlParse2 w2
      rw [← h2]
      simp only [getAccountsConfig]
      cases resolveFresh yamlParse2 w2 <;> rfl

/-- C8: a credential string containing no env references — no position
of it matches either alternative of `ENV_REF_REGEX`, though it may
still contain dollar signs — is returned unchanged by environment
substitution. -/
theorem resolveEnvReferences_no_refs (env : EnvMap) (value accountId : String)
    (h : hasEnvRef value.data = false) :
    resolveEnvReferences env value accountId = Except.ok value := by
  unfold resolveEnvReferences
  rw [scanEnvRefs_no_match env accountId value.data h]
  simp [Except.map, string_mk_data]

/-- C5: candidate-token extraction succeeds exactly when the header is
the Bearer scheme (case-insensitive) followed by one space and a
remainder; any other header shape, including an absent header, yields no
candidate and is rejected whenever a secret is configured. -/
theorem bearer_candidate_extraction :
    (∀ headerValue : String, (extractCandidate headerValue).isSome = true ↔
      ∃ scheme rest, headerValue = scheme ++ " " ++ rest ∧
        jsToLower scheme = "bearer")
    ∧ (∀ (masterKeyEnv : Option String) (req : HttpRequest),
        jsTrim (masterKeyEnv.getD "") ≠ "" →
        extractCandidate (req.authorization.getD "") = none →
        masterKeyAuth masterKeyEnv req ≠ AuthDecision.allow) := by
  constructor
  · exact extractCandidate_some_iff
  · intro masterKeyEnv req hk hnone
    have hne : extractCandidate (req.authorization.getD "") ≠
        some (jsTrim (masterKeyEnv.getD "")) := by
      rw [hnone]
      simp
    simp only [masterKeyAuth, if_neg hk, if_neg hne]
    split <;> simp

theorem sample_normalize :
    normalizeAccounts emptyEnv [sampleAccountA, sampleAccountB] 0
        "/app/config.yaml" =
      Except.ok [⟨"primary", "token-one"⟩, ⟨"backup", "token-two"⟩] := by
  have hrA : resolveEnvReferences emptyEnv "token-one" "primary" =
      Except.ok "token-one" :=
    resolve_plain_ok _ _ _ (by decide)
  have hrB : resolveEnvReferences emptyEnv "token-two" "backup" =
      Except.ok "token-two" :=
    resolve_plain_ok _ _ _ (by decide)
  have hA : ∀ idx : Nat,
      normalizeAccount emptyEnv sampleAccountA idx "/app/config.yaml" =
        (resolveEnvReferences emptyEnv "token-one" "primary").map
          (fun t => ⟨"primary", t⟩) :=
    fun _ => rfl
  have hB : ∀ idx : Nat,
      normalizeAccount emptyEnv sampleAccountB idx "/app/config.yaml" =
        (resolveEnvReferences emptyEnv "token-two" "backup").map
          (fun t => ⟨"backup", t⟩) :=
    fun _ => rfl
  have hA2 : ∀ idx : Nat,
      normalizeAccount emptyEnv sampleAccountA idx "/app/config.yaml" =
        Except.ok ⟨"primary", "token-one"⟩ := by
    intro idx
    rw [hA idx, hrA]
    rfl
  have hB2 : ∀ idx : Nat,
      normalizeAccount emptyEnv sampleAccountB idx "/app/config.yaml" =
        Except.ok ⟨"backup", "token-two"⟩ := by
    intro idx
    rw [hB idx, hrB]
    rfl
  simp only [normalizeAccounts, hA2, hB2]

theorem sample_parseConfig :
    parseConfig sampleParse emptyEnv "" "/app/config.yaml" =
      Except.ok sampleCfg := by
  have hstep : parseConfig sampleParse emptyEnv "" "/app/config.yaml" =
      (match normalizeAccounts emptyEnv [sampleAccountA, sampleAccountB] 0
          "/app/config.yaml" with
       | Except.error e => Except.error e
       | Except.ok accounts =>
         Except.ok ⟨accounts, (accounts.headD ⟨"", ""⟩).id⟩) := rfl
  rw [hstep, sample_normalize]
  rfl

theorem sample_getAccounts :
    getAccountsConfig sampleParse sampleWorld none =
      (Except.ok sampleCfg, some sampleCfg) := by
  have hres : resolveFresh sampleParse sampleWorld =
      parseConfig sampleParse emptyEnv "" "/app/config.yaml" := rfl
  have hres2 : resolveFresh sampleParse sampleWorld = Except.ok sampleCfg := by
    rw [hres, sample_parseConfig]
  simp only [getAccountsConfig, hres2]


/-- Witness for C1: with secret "secret", a request bearing
"Bearer secret" is allowed. -/
theorem masterKeyAuth_gate_decision_witness :
    jsTrim ((some "secret" : Option String).getD "") ≠ "" ∧
    masterKeyAuth (some "secret")
        ⟨some "Bearer secret", "/v1/chat/completions"⟩ = AuthDecision.allow :=
  ⟨by decide,
   (masterKeyAuth_gate_decision (some "secret")
      ⟨some "Bearer secret", "/v1/chat/completions"⟩ (by decide)).1.mpr
     (by decide)⟩

/-- Witness for C2 on the spec's two-account example document. -/
theorem parseConfig_shape_witness :
    sampleParse "" = Except.ok (some sampleDoc) ∧
    getField sampleDoc "accounts" =
      some (YamlValue.arr [sampleAccountA, sampleAccountB]) ∧
    ([sampleAccountA, sampleAccountB] : List YamlValue) ≠ [] ∧
    normalizeAccounts emptyEnv [sampleAccountA, sampleAccountB] 0
        "/app/config.yaml" =
      Except.ok [⟨"primary", "token-one"⟩, ⟨"backup", "token-two"⟩] ∧
    (∃ cfg, parseConfig sampleParse emptyEnv "" "/app/config.yaml" =
        Except.ok cfg ∧
      cfg.accounts = [⟨"primary", "token-one"⟩, ⟨"backup", "token-two"⟩] ∧
      ([(⟨"primary", "token-one"⟩ : AccountDefinition),
        ⟨"backup", "token-two"⟩]).length =
        ([sampleAccountA, sampleAccountB] : List YamlValue).length ∧
      (∀ k (hk : k < ([sampleAccountA, sampleAccountB] : List YamlValue).length)
          (hk2 : k < ([(⟨"primary", "token-one"⟩ : AccountDefinition),
            ⟨"backup", "token-two"⟩]).length),
        normalizeAccount emptyEnv
            (([sampleAccountA, sampleAccountB] : List YamlValue).get ⟨k, hk⟩) k
            "/app/config.yaml" =
          Except.ok (([(⟨"primary", "token-one"⟩ : AccountDefinition),
            ⟨"backup", "token-two"⟩]).get ⟨k, hk2⟩)) ∧
      (∀ a rest2,
        ([(⟨"primary", "token-one"⟩ : AccountDefinition),
          ⟨"backup", "token-two"⟩]) = a :: rest2 →
        cfg.defaultAccountId = a.id)) :=
  ⟨rfl, rfl, by simp, sample_normalize,
   parseConfig_shape sampleParse emptyEnv "" "/app/config.yaml" sampleDoc
     [sampleAccountA, sampleAccountB]
     [⟨"primary", "token-one"⟩, ⟨"backup", "token-two"⟩]
     rfl rfl (by simp) sample_normalize⟩

/-- Witness for C3: a braced reference between a plain prefix and suffix
is substituted from the environment. -/
theorem resolveEnvReferences_env_ref_witness :
    (∀ c ∈ "pre-".data, c ≠ '$') ∧
    "TOKEN_A".data ≠ [] ∧
    (∀ c ∈ "TOKEN_A".data, isWordChar c = true) ∧
    resolveEnvReferences
        (fun n => if n = "TOKEN_A" then some "tok-val" else none)
        ("pre-" ++ "$\x7b" ++ "TOKEN_A" ++ "\x7d" ++ "-post") "acct" =
      (resolveEnvReferences
        (fun n => if n = "TOKEN_A" then some "tok-val" else none)
        "-post" "acct").map (fun t => "pre-" ++ "tok-val" ++ t) :=
  ⟨by decide, by decide, by decide,
   (resolveEnvReferences_env_ref
      (fun n => if n = "TOKEN_A" then some "tok-val" else none)
      "acct" "pre-" "TOKEN_A" "-post"
      (by decide) (by decide) (by decide)).1.1 "tok-val" (by decide)
     (by decide)⟩

/-- Witness for C4: the example resolution is cached, and a second call
against a changed world returns the identical cached set. -/
theorem getAccountsConfig_caches_witness :
    getAccountsConfig sampleParse sampleWorld none =
      (Except.ok sampleCfg, some sampleCfg) ∧
    getAccountsConfig (fun _ => Except.error "changed")
        ⟨emptyEnv, fun _ => none, "/app", fun p => p⟩ (some sampleCfg) =
      (Except.ok sampleCfg, some sampleCfg) := by
  have h := sample_getAccounts
  exact ⟨h,
    (getAccountsConfig_caches sampleParse sampleWorld sampleCfg
      (some sampleCfg) h).2.1 (fun _ => Except.error "changed")
      ⟨emptyEnv, fun _ => none, "/app", fun p => p⟩⟩

/-- Witness for C5: a wrong-scheme header yields no candidate, and with a
secret configured a headerless request is not allowed. -/
theorem bearer_candidate_extraction_witness :
    ((extractCandidate "Basic abc").isSome = true ↔
      ∃ scheme rest, "Basic abc" = scheme ++ " " ++ rest ∧
        jsToLower scheme = "bearer") ∧
    masterKeyAuth (some "secret") ⟨none, "/v1/responses"⟩ ≠
      AuthDecision.allow :=
  ⟨bearer_candidate_extraction.1 "Basic abc",
   bearer_candidate_extraction.2 (some "secret") ⟨none, "/v1/responses"⟩
     (by decide) (by decide)⟩

/-- Witness for the amended C6 on the example document. -/
theorem parseConfig_default_is_member_witness :
    parseConfig sampleParse emptyEnv "" "/app/config.yaml" =
      Except.ok sampleCfg ∧
    sampleCfg.defaultAccountId ∈
      sampleCfg.accounts.map AccountDefinition.id :=
  ⟨sample_parseConfig,
   parseConfig_default_is_member sampleParse emptyEnv "" "/app/config.yaml"
     sampleCfg sample_parseConfig⟩

/-- Witness for C7: a whitespace-only secret admits a headerless request
and a request with a wrong token. -/
theorem masterKeyAuth_blank_allows_witness :
    jsTrim ((some "  " : Option String).getD "") = "" ∧
    masterKeyAuth (some "  ") ⟨none, "/v1/chat/completions"⟩ =
      AuthDecision.allow ∧
    masterKeyAuth (some "  ") ⟨some "Bearer wrong", "/v1/messages"⟩ =
      AuthDecision.allow :=
  ⟨by decide,
   masterKeyAuth_blank_allows (some "  ")
     ⟨none, "/v1/chat/completions"⟩ (by decide),
   masterKeyAuth_blank_allows (some "  ")
     ⟨some "Bearer wrong", "/v1/messages"⟩ (by decide)⟩

/-- Witness for C8 on a credential with dollar signs that match neither
reference alternative: a dollar before a space, an empty braced form,
and a trailing dollar, all left unchanged. -/
theorem resolveEnvReferences_no_refs_witness :
    hasEnvRef "a$ b$\x7b\x7dc$".data = false ∧
    resolveEnvReferences emptyEnv "a$ b$\x7b\x7dc$" "acct" =
      Except.ok "a$ b$\x7b\x7dc$" :=
  ⟨by decide,
   resolveEnvReferences_no_refs emptyEnv "a$ b$\x7b\x7dc$" "acct" (by decide)⟩

/-- Witness for C9: a dollar before a non-word character and an empty
braced form both stay literal. -/
theorem resolveEnvReferences_literal_dollar_witness :
    resolveEnvReferences emptyEnv ("$" ++ "-abc") "acct" =
      (resolveEnvReferences emptyEnv "-abc" "acct").map (fun t => "$" ++ t) ∧
    resolveEnvReferences emptyEnv ("$\x7b\x7d" ++ "tail") "acct" =
      (resolveEnvReferences emptyEnv "tail" "acct").map
        (fun t => "$\x7b\x7d" ++ t) :=
  ⟨(resolveEnvReferences_literal_dollar emptyEnv "acct").1 "-abc" (by
      intro c hc
      have hcc : c = '-' := (Option.some.inj hc).symm
      subst hcc
      exact ⟨by decide, by decide⟩),
   (resolveEnvReferences_literal_dollar emptyEnv "acct").2 "tail"⟩

/-- Witness for C10: a failing parse leaves the cache empty and the next
call resolves freshly. -/
theorem getAccountsConfig_error_witness :
    getAccountsConfig (fun _ => Except.error "boom") sampleWorld none =
      (Except.error "Failed to parse accounts config (/app/config.yaml): boom",
       none) ∧
    (getAccountsConfig sampleParse sampleWorld
        (none : Option AccountsConfig)).1 =
      resolveFresh sampleParse sampleWorld := by
  have h : getAccountsConfig (fun _ => Except.error "boom") sampleWorld none =
      (Except.error "Failed to parse accounts config (/app/config.yaml): boom",
       none) := rfl
  exact ⟨h,
    (getAccountsConfig_error_leaves_cache_empty (fun _ => Except.error "boom")
      sampleWorld _ none h).2 sampleParse sampleWorld⟩

end CopilotRouter
